import Mathlib

/-!
Verification of the generic data-access layer: filter cleaning, ordering,
soft-delete semantics of the repository classes, the unit-of-work exit
protocol, and the service pass-through methods.

The embedding is shallow:
* A dynamic column value is a `Value` (SQL NULL is `Value.vNone`).
* A filter set (Python keyword dict) and a row (ORM instance) are both
  insertion-ordered association lists `List (String × Value)`.
* The store visible through one session is a `List Row` in store order;
  a query with no ORDER BY returns rows in that order.
* Orderable columns (creation timestamps, identities) are numeric, read by
  `natOf`; descending ORDER BY is modelled by `sortDescBy`.
* An entity class (`self.model`) is a `Model` carrying the set of column
  names it declares, which is what `getattr(self.model, name, None)`
  consults when picking an ordering column.
* Mutating repository operations return `(rows, committed, result)`:
  the store after the call, whether a commit was issued, and the value
  returned to the caller.  `session.refresh` is the identity here because
  the modelled rows are always current.
* The async session of the unit of work is modelled by the trace of the
  session calls it attempts; each call may raise, governed by a failure
  oracle.
-/

/-- A dynamic value of a filter entry or a row attribute.  `vNone` is
Python None / SQL NULL. -/
inductive Value where
  | vNone
  | vBool (b : Bool)
  | vNat (n : Nat)
  | vStr (s : String)
deriving DecidableEq

/-- A filter set: field name to expected value, in insertion order,
as built from caller keyword arguments. -/
abbrev Filters := List (String × Value)

/-- A row (ORM instance): attribute name to value. -/
abbrev Row := List (String × Value)

/-- Attribute read on a row; first binding of the name wins. -/
def Row.get (r : Row) (k : String) : Value :=
  match r with
  | [] => Value.vNone
  | kv :: rest => if kv.1 = k then kv.2 else Row.get rest k

/-- Python setattr on an instance: replace the first binding of the
name, or append a new binding. -/
def Row.set (r : Row) (k : String) (v : Value) : Row :=
  match r with
  | [] => [(k, v)]
  | kv :: rest => if kv.1 = k then (k, v) :: rest else kv :: Row.set rest k v

/-- Whether the filter dict already has an entry for the key. -/
def hasKey (fs : Filters) (k : String) : Bool :=
  fs.any (fun kv => decide (kv.1 = k))

/-- Python dict.setdefault: keep an existing entry untouched, otherwise
append the default at the end. -/
def setdefault (fs : Filters) (k : String) (v : Value) : Filters :=
  if hasKey fs k then fs else fs ++ [(k, v)]

/-- SQLAlchemy filter_by semantics: a row satisfies the filter set when
every entry equals the corresponding attribute (a None entry is an
IS NULL constraint). -/
def rowMatches (r : Row) (fs : Filters) : Bool :=
  fs.all (fun kv => decide (Row.get r kv.1 = kv.2))

/-- An entity class: the set of column names the mapped model declares.
`getattr(self.model, name, None)` is `columns.contains name`. -/
structure Model where
  columns : List String
deriving DecidableEq

/-- Numeric reading of an orderable column value (timestamps and
identities are numeric columns). -/
def natOf : Value → Nat
  | Value.vNat n => n
  | _ => 0

/-- Descending ORDER BY on a numeric column key. -/
def sortDescBy (key : Row → Nat) (l : List Row) : List Row :=
  List.insertionSort (fun a b => key b ≤ key a) l

/-- BaseRepository._clean_filters: keep the dict as is when nulls are
allowed, otherwise drop every None-valued entry. -/
def BaseRepository._clean_filters (fs : Filters) (allow_null : Bool) : Filters :=
  if allow_null then fs else fs.filter (fun kv => decide (kv.2 ≠ Value.vNone))

/-- Ordering column used by get_list / get_paginated_list:
created_at when the model has it, else id, else none. -/
def orderField (m : Model) : Option String :=
  if m.columns.contains "created_at" then some "created_at"
  else if m.columns.contains "id" then some "id"
  else none

/-- Ordering column used by get_last_entry: the requested order_field
when the model has it, else id, else none. -/
def chosenField (m : Model) (order_field : String) : Option String :=
  if m.columns.contains order_field then some order_field
  else if m.columns.contains "id" then some "id"
  else none

/-- BaseRepository.get_single: clean the filters, select with no ORDER BY,
return the first match or the not-found sentinel. -/
def BaseRepository.get_single (allow_null_filters : Bool) (fs : Filters)
    (rows : List Row) : Option Row :=
  rows.find? (fun r => rowMatches r (BaseRepository._clean_filters fs allow_null_filters))

/-- BaseRepository.get_list: clean the filters, select all matches,
ORDER BY created_at desc when the model has created_at, else id desc,
else store order. -/
def BaseRepository.get_list (m : Model) (allow_null_filters : Bool) (fs : Filters)
    (rows : List Row) : List Row :=
  let cleaned := BaseRepository._clean_filters fs allow_null_filters
  let matched := rows.filter (fun r => rowMatches r cleaned)
  match orderField m with
  | some f => sortDescBy (fun r => natOf (Row.get r f)) matched
  | none => matched

/-- BaseRepository.get_last_entry: the filters are used raw (no
_clean_filters call), ORDER BY order_field desc (falling back to id),
LIMIT 1, first row or the sentinel. -/
def BaseRepository.get_last_entry (m : Model) (order_field : String) (fs : Filters)
    (rows : List Row) : Option Row :=
  let matched := rows.filter (fun r => rowMatches r fs)
  (match chosenField m order_field with
   | some f => sortDescBy (fun r => natOf (Row.get r f)) matched
   | none => matched).head?

/-- The external pagination collaborator: slicing and page metadata are
outside this core, so it is modelled as the identity on the ordered row
sequence handed to it. -/
def paginate (l : List Row) : List Row := l

/-- BaseRepository.get_paginated_list: same cleaned filters and ordering
as get_list, handed to the pagination collaborator. -/
def BaseRepository.get_paginated_list (m : Model) (allow_null_filters : Bool)
    (fs : Filters) (rows : List Row) : List Row :=
  let cleaned := BaseRepository._clean_filters fs allow_null_filters
  let matched := rows.filter (fun r => rowMatches r cleaned)
  paginate (match orderField m with
    | some f => sortDescBy (fun r => natOf (Row.get r f)) matched
    | none => matched)

/-- setattr of every key of the update payload onto the instance, in
payload order. -/
def applyData (r : Row) (data : Filters) : Row :=
  data.foldl (fun acc kv => Row.set acc kv.1 kv.2) r

/-- Replace the first row satisfying the predicate (the instance the
query returned is mutated in place inside the session). -/
def updateFirst (p : Row → Bool) (f : Row → Row) : List Row → List Row
  | [] => []
  | r :: rs => if p r then f r :: rs else r :: updateFirst p f rs

/-- BaseRepository.update: clean the filters, take the first match; if
found, assign every payload key onto it, commit (and refresh) only when
asked, and return it; on zero matches return the sentinel, mutate
nothing, issue no commit. -/
def BaseRepository.update (data : Filters) (allow_null_filters : Bool) (commit : Bool)
    (fs : Filters) (rows : List Row) : List Row × Bool × Option Row :=
  let cleaned := BaseRepository._clean_filters fs allow_null_filters
  match rows.find? (fun r => rowMatches r cleaned) with
  | some inst =>
      (updateFirst (fun r => rowMatches r cleaned) (fun r => applyData r data) rows,
       commit, some (applyData inst data))
  | none => (rows, false, none)

/-- BaseRepository.delete: clean the filters, take the first match; if
found and commit is true, physically remove it and commit; if found and
commit is false, remove nothing and issue no commit; the found instance
is returned either way, the sentinel on zero matches. -/
def BaseRepository.delete (commit : Bool) (allow_null_filters : Bool)
    (fs : Filters) (rows : List Row) : List Row × Bool × Option Row :=
  let cleaned := BaseRepository._clean_filters fs allow_null_filters
  match rows.find? (fun r => rowMatches r cleaned) with
  | some inst =>
      if commit then
        (rows.eraseP (fun r => rowMatches r cleaned), true, some inst)
      else
        (rows, false, some inst)
  | none => (rows, false, none)

/-- Default of the commit parameter of BaseRepository.update. -/
def BaseRepository.update_default_commit : Bool := false

/-- Default of the commit parameter of BaseRepository.delete. -/
def BaseRepository.delete_default_commit : Bool := false

/-- SoftDeleteRepository.get_single: default is_deleted to False in the
filter dict, then delegate. -/
def SoftDeleteRepository.get_single (allow_null_filters : Bool) (fs : Filters)
    (rows : List Row) : Option Row :=
  BaseRepository.get_single allow_null_filters
    (setdefault fs "is_deleted" (Value.vBool false)) rows

/-- SoftDeleteRepository.get_list: default is_deleted to False, then
delegate. -/
def SoftDeleteRepository.get_list (m : Model) (allow_null_filters : Bool)
    (fs : Filters) (rows : List Row) : List Row :=
  BaseRepository.get_list m allow_null_filters
    (setdefault fs "is_deleted" (Value.vBool false)) rows

/-- SoftDeleteRepository.get_last_entry: default is_deleted to False,
then delegate. -/
def SoftDeleteRepository.get_last_entry (m : Model) (order_field : String)
    (fs : Filters) (rows : List Row) : Option Row :=
  BaseRepository.get_last_entry m order_field
    (setdefault fs "is_deleted" (Value.vBool false)) rows

/-- SoftDeleteRepository.get_paginated_list: default is_deleted to False,
then delegate. -/
def SoftDeleteRepository.get_paginated_list (m : Model) (allow_null_filters : Bool)
    (fs : Filters) (rows : List Row) : List Row :=
  BaseRepository.get_paginated_list m allow_null_filters
    (setdefault fs "is_deleted" (Value.vBool false)) rows

/-- SoftDeleteRepository.update: default is_deleted to False, then
delegate (commit defaults to true on this variant, see
SoftDeleteRepository.update_default_commit). -/
def SoftDeleteRepository.update (data : Filters) (allow_null_filters : Bool)
    (commit : Bool) (fs : Filters) (rows : List Row) : List Row × Bool × Option Row :=
  BaseRepository.update data allow_null_filters commit
    (setdefault fs "is_deleted" (Value.vBool false)) rows

/-- SoftDeleteRepository.delete: default is_deleted to False, clean the
filters, take the first match; if found, set is_deleted True and stamp
deleted_at with the clock value, commit (and refresh) only when asked,
and return the mutated instance; the row is never physically removed. -/
def SoftDeleteRepository.delete (now : Nat) (commit : Bool) (allow_null_filters : Bool)
    (fs : Filters) (rows : List Row) : List Row × Bool × Option Row :=
  let cleaned := BaseRepository._clean_filters
    (setdefault fs "is_deleted" (Value.vBool false)) allow_null_filters
  let mark := fun (r : Row) =>
    Row.set (Row.set r "is_deleted" (Value.vBool true)) "deleted_at" (Value.vNat now)
  match rows.find? (fun r => rowMatches r cleaned) with
  | some inst =>
      (updateFirst (fun r => rowMatches r cleaned) mark rows, commit, some (mark inst))
  | none => (rows, false, none)

/-- Default of the commit parameter of SoftDeleteRepository.update. -/
def SoftDeleteRepository.update_default_commit : Bool := true

/-- Default of the commit parameter of SoftDeleteRepository.delete. -/
def SoftDeleteRepository.delete_default_commit : Bool := true

/-- BaseService.delete forwards its allow_null_filters argument to the
repository delete POSITIONALLY; the first positional parameter of
BaseRepository.delete is commit, so the value lands in commit and the
repository uses its own default (False) for allow_null_filters. -/
def BaseService.delete (allow_null_filters : Bool) (fs : Filters)
    (rows : List Row) : List Row × Bool × Option Row :=
  BaseRepository.delete allow_null_filters false fs rows

/-- Attribute names a BaseRepository instance exposes (class variables,
constructor fields and methods of the class body). -/
def BaseRepository.attributeNames : List String :=
  ["model", "session", "create", "get_single", "get_list", "get_last_entry",
   "get_paginated_list", "update", "delete", "_clean_filters", "paginate"]

/-- Methods the SoftDeleteRepository class body defines; all override
base methods, so the exposed attribute set is the base one. -/
def SoftDeleteRepository.ownMethodNames : List String :=
  ["get_single", "get_list", "get_last_entry", "get_paginated_list",
   "update", "delete"]

/-- Attribute names a SoftDeleteRepository instance exposes. -/
def SoftDeleteRepository.attributeNames : List String :=
  SoftDeleteRepository.ownMethodNames ++ BaseRepository.attributeNames

/-- Python attribute lookup on an object with the given attribute names:
AttributeError when the name is absent. -/
def pyGetattr (attrs : List String) (name : String) : Except String Unit :=
  if attrs.contains name then Except.ok () else Except.error ("AttributeError: " ++ name)

/-- BaseService.get_list_without_pagination: resolves the attribute
get_list_without_pagination on the repository and calls it.  The ok
branch stands for that call; it is unreachable for the repository
classes of this codebase, since neither declares the attribute. -/
def BaseService.get_list_without_pagination (repoAttrs : List String)
    (allow_null_filters : Bool) (fs : Filters) (rows : List Row) :
    Except String (List Row) :=
  match pyGetattr repoAttrs "get_list_without_pagination" with
  | Except.error e => Except.error e
  | Except.ok _ => Except.ok []

/-- The session calls the unit-of-work exit path can attempt. -/
inductive SessAction where
  | commit
  | rollback
  | close
deriving DecidableEq

/-- The terminal call chosen on exit: rollback when an exception
propagated through the scope, commit otherwise. -/
def firstAction (excPending : Bool) : SessAction :=
  if excPending then SessAction.rollback else SessAction.commit

/-- UnitOfWork.__aexit__ as straight-line code with exceptions: run the
terminal call; if it raises, the exception escapes at once and close is
never reached; otherwise run close, whose failure also escapes.  Returns
the trace of attempted session calls and whether an exception escaped
the exit. -/
def UnitOfWork.aexit (excPending : Bool) (fails : SessAction → Bool) :
    List SessAction × Bool :=
  let a := firstAction excPending
  if fails a then ([a], true)
  else ([a, SessAction.close], fails SessAction.close)

/-! ### Helper lemmas -/

theorem rowMatches_iff {r : Row} {fs : Filters} :
    rowMatches r fs = true ↔ ∀ kv ∈ fs, Row.get r kv.1 = kv.2 := by
  simp [rowMatches, List.all_eq_true]

theorem clean_filters_sublist (fs : Filters) (b : Bool) :
    (BaseRepository._clean_filters fs b).Sublist fs := by
  unfold BaseRepository._clean_filters
  by_cases h : b = true
  · simp [h]
  · simp only [Bool.not_eq_true] at h
    simp [h, List.filter_sublist]

theorem mem_clean_filters_false {kv : String × Value} {fs : Filters} :
    kv ∈ BaseRepository._clean_filters fs false ↔ kv ∈ fs ∧ kv.2 ≠ Value.vNone := by
  simp [BaseRepository._clean_filters, List.mem_filter]

theorem rowMatches_clean_of_rowMatches {r : Row} {fs : Filters} (b : Bool)
    (h : rowMatches r fs = true) :
    rowMatches r (BaseRepository._clean_filters fs b) = true := by
  rw [rowMatches_iff] at h ⊢
  intro kv hkv
  exact h kv ((clean_filters_sublist fs b).subset hkv)

theorem length_updateFirst (p : Row → Bool) (f : Row → Row) (l : List Row) :
    (updateFirst p f l).length = l.length := by
  induction l with
  | nil => rfl
  | cons r rs ih =>
    unfold updateFirst
    by_cases h : p r = true
    · simp [h]
    · simp only [Bool.not_eq_true] at h
      simp [h, ih]

theorem mem_updateFirst_of_find? {p : Row → Bool} {f : Row → Row} {l : List Row}
    {inst : Row} (h : l.find? p = some inst) : f inst ∈ updateFirst p f l := by
  induction l with
  | nil => simp at h
  | cons r rs ih =>
    by_cases hp : p r = true
    · rw [List.find?_cons_of_pos _ hp] at h
      cases h
      simp [updateFirst, hp]
    · simp only [Bool.not_eq_true] at hp
      rw [List.find?_cons_of_neg _ (by simp [hp])] at h
      simp [updateFirst, hp, ih h]

theorem Row.get_set_self (r : Row) (k : String) (v : Value) :
    Row.get (Row.set r k v) k = v := by
  induction r with
  | nil => simp [Row.set, Row.get]
  | cons kv rest ih =>
    unfold Row.set
    by_cases h : kv.1 = k
    · simp [h, Row.get]
    · simp [h, Row.get, ih]

theorem Row.get_set_ne (r : Row) {k k2 : String} (v : Value) (hne : k ≠ k2) :
    Row.get (Row.set r k v) k2 = Row.get r k2 := by
  induction r with
  | nil => simp [Row.set, Row.get, hne]
  | cons kv rest ih =>
    unfold Row.set
    by_cases h : kv.1 = k
    · simp [h, Row.get, hne, Ne.symm hne]
    · simp [h, Row.get, ih]

theorem perm_sortDescBy (key : Row → Nat) (l : List Row) :
    (sortDescBy key l).Perm l :=
  List.perm_insertionSort _ l

theorem sorted_sortDescBy (key : Row → Nat) (l : List Row) :
    (sortDescBy key l).Sorted (fun a b => key b ≤ key a) := by
  haveI : IsTotal Row (fun a b => key b ≤ key a) :=
    ⟨fun a b => Nat.le_total (key b) (key a)⟩
  haveI : IsTrans Row (fun a b => key b ≤ key a) :=
    ⟨fun _ _ _ h1 h2 => Nat.le_trans h2 h1⟩
  exact List.sorted_insertionSort _ l

theorem sorted_gt_map_of_nodup (key : Row → Nat) (l : List Row)
    (hs : l.Sorted (fun a b => key b ≤ key a)) (hn : (l.map key).Nodup) :
    (l.map key).Sorted (· > ·) := by
  rw [List.Sorted, List.pairwise_map]
  rw [List.Nodup, List.pairwise_map] at hn
  exact (List.Pairwise.and hs hn).imp
    (fun h => Nat.lt_of_le_of_ne h.1 (fun he => h.2 (he.symm)))

/-! ### Claim theorems -/

/-- C3: cleaning a filter mapping with allow_null_filters=false removes
exactly the entries whose value is null — every surviving entry is a
non-null entry of the input and every non-null entry survives unchanged,
the result being a sublist of the input — while allow_null_filters=true
returns the mapping unchanged, null entries included. -/
theorem clean_filters_removes_exactly_nulls (fs : Filters) :
    BaseRepository._clean_filters fs true = fs
    ∧ (∀ kv, kv ∈ BaseRepository._clean_filters fs false ↔ kv ∈ fs ∧ kv.2 ≠ Value.vNone)
    ∧ (BaseRepository._clean_filters fs false).Sublist fs :=
  ⟨rfl, fun _ => mem_clean_filters_false, clean_filters_sublist fs false⟩

/-- C1 counterexample: when the scope completed cleanly but the commit
itself raises, the exit path attempts only the commit — the session is
neither rolled back nor closed, refuting the claim that the session is
closed unconditionally on every exit path with rollback attempted when
commit raises. -/
theorem uow_exit_commit_raises_skips_close :
    (UnitOfWork.aexit false (fun a => decide (a = SessAction.commit))).1 = [SessAction.commit]
    ∧ SessAction.rollback ∉ (UnitOfWork.aexit false (fun a => decide (a = SessAction.commit))).1
    ∧ SessAction.close ∉ (UnitOfWork.aexit false (fun a => decide (a = SessAction.commit))).1
    ∧ (UnitOfWork.aexit false (fun a => decide (a = SessAction.commit))).2 = true := by
  decide

/-- C1 amended: on scope exit the terminal session call is commit when no
failure surfaced and rollback when one did; when that call succeeds the
session is then closed, a failure of close escaping unswallowed; but when
the terminal call itself raises, the exception escapes immediately — no
rollback is attempted and the session is not closed. -/
theorem uow_exit_protocol (excPending : Bool) (fails : SessAction → Bool) :
    firstAction false = SessAction.commit
    ∧ firstAction true = SessAction.rollback
    ∧ (fails (firstAction excPending) = false →
        (UnitOfWork.aexit excPending fails).1 = [firstAction excPending, SessAction.close]
        ∧ (UnitOfWork.aexit excPending fails).2 = fails SessAction.close)
    ∧ (fails (firstAction excPending) = true →
        (UnitOfWork.aexit excPending fails).1 = [firstAction excPending]
        ∧ (UnitOfWork.aexit excPending fails).2 = true) := by
  refine ⟨rfl, rfl, fun h => ?_, fun h => ?_⟩ <;> simp [UnitOfWork.aexit, h]

/-- C1 witness: a failing scope whose rollback and close succeed ends
with the trace rollback-then-close and no escaping exception. -/
theorem uow_exit_protocol_witness :
    (UnitOfWork.aexit true (fun _ => false)).1 = [SessAction.rollback, SessAction.close]
    ∧ (UnitOfWork.aexit true (fun _ => false)).2 = false :=
  ⟨((uow_exit_protocol true (fun _ => false)).2.2.1 rfl).1,
   ((uow_exit_protocol true (fun _ => false)).2.2.1 rfl).2⟩

/-- C2: BaseService.delete is not an identical pass-through — it forwards
its allow_null_filters argument positionally into the commit parameter of
BaseRepository.delete.  On a store holding the single row id=1, name="a",
calling the service delete with allow_null_filters=true and the filter
name=None physically removes the row and commits, whereas the claimed
pass-through (repository delete with its own default commit and
allow_null_filters=true) would keep the null filter, match nothing and
leave the store untouched. -/
theorem service_delete_misroutes_allow_null_filters :
    BaseService.delete true [("name", Value.vNone)]
        [[("id", Value.vNat 1), ("name", Value.vStr "a")]]
      = ([], true, some [("id", Value.vNat 1), ("name", Value.vStr "a")])
    ∧ BaseRepository.delete BaseRepository.delete_default_commit true [("name", Value.vNone)]
        [[("id", Value.vNat 1), ("name", Value.vStr "a")]]
      = ([[("id", Value.vNat 1), ("name", Value.vStr "a")]], false, none)
    ∧ BaseService.delete true [("name", Value.vNone)]
        [[("id", Value.vNat 1), ("name", Value.vStr "a")]]
      ≠ BaseRepository.delete BaseRepository.delete_default_commit true [("name", Value.vNone)]
        [[("id", Value.vNat 1), ("name", Value.vStr "a")]] :=
  ⟨by decide, by decide, by decide⟩

/-- C4: for every matching row, SoftDeleteRepository.delete keeps the
store size unchanged (no physical removal), returns the found instance
mutated to is_deleted=true with deleted_at stamped to the current clock
value, keeps that mutated instance in the store, and issues a commit
exactly when commit is true; moreover the commit defaults are true for
the soft variant's update and delete and false on the base repository. -/
theorem soft_delete_marks_instead_of_removing
    (now : Nat) (commit allow_null_filters : Bool) (fs : Filters) (rows : List Row) (inst : Row)
    (h : rows.find? (fun r => rowMatches r (BaseRepository._clean_filters
          (setdefault fs "is_deleted" (Value.vBool false)) allow_null_filters)) = some inst) :
    (SoftDeleteRepository.delete now commit allow_null_filters fs rows).1.length = rows.length
    ∧ (SoftDeleteRepository.delete now commit allow_null_filters fs rows).2.1 = commit
    ∧ (∃ marked,
        (SoftDeleteRepository.delete now commit allow_null_filters fs rows).2.2 = some marked
        ∧ Row.get marked "is_deleted" = Value.vBool true
        ∧ Row.get marked "deleted_at" = Value.vNat now
        ∧ marked ∈ (SoftDeleteRepository.delete now commit allow_null_filters fs rows).1)
    ∧ SoftDeleteRepository.update_default_commit = true
    ∧ SoftDeleteRepository.delete_default_commit = true
    ∧ BaseRepository.update_default_commit = false
    ∧ BaseRepository.delete_default_commit = false := by
  simp only [SoftDeleteRepository.delete]
  rw [h]
  exact ⟨length_updateFirst _ _ _, rfl,
    ⟨Row.set (Row.set inst "is_deleted" (Value.vBool true)) "deleted_at" (Value.vNat now),
      rfl, by rw [Row.get_set_ne _ _ (by decide), Row.get_set_self],
      Row.get_set_self _ _ _, mem_updateFirst_of_find? h⟩, rfl, rfl, rfl, rfl⟩

/-- C4 witness: soft-deleting the single active row of a one-row store
with the clock at 99 keeps one row, commits, and returns the row flagged
is_deleted=true with deleted_at=99. -/
theorem soft_delete_marks_instead_of_removing_witness :
    (SoftDeleteRepository.delete 99 true false [("id", Value.vNat 1)]
        [[("id", Value.vNat 1), ("is_deleted", Value.vBool false),
          ("deleted_at", Value.vNone)]]).1.length = 1
    ∧ (SoftDeleteRepository.delete 99 true false [("id", Value.vNat 1)]
        [[("id", Value.vNat 1), ("is_deleted", Value.vBool false),
          ("deleted_at", Value.vNone)]]).2.1 = true :=
  ⟨(soft_delete_marks_instead_of_removing 99 true false [("id", Value.vNat 1)]
      [[("id", Value.vNat 1), ("is_deleted", Value.vBool false), ("deleted_at", Value.vNone)]]
      [("id", Value.vNat 1), ("is_deleted", Value.vBool false), ("deleted_at", Value.vNone)]
      (by decide)).1,
   (soft_delete_marks_instead_of_removing 99 true false [("id", Value.vNat 1)]
      [[("id", Value.vNat 1), ("is_deleted", Value.vBool false), ("deleted_at", Value.vNone)]]
      [("id", Value.vNat 1), ("is_deleted", Value.vBool false), ("deleted_at", Value.vNone)]
      (by decide)).2.1⟩

theorem hasKey_append_self (fs : Filters) (k : String) (v : Value) :
    hasKey (fs ++ [(k, v)]) k = true := by
  simp [hasKey]

theorem mem_clean_filters_of_ne_none {kv : String × Value} {fs : Filters} (b : Bool)
    (h : kv ∈ fs) (hv : kv.2 ≠ Value.vNone) :
    kv ∈ BaseRepository._clean_filters fs b := by
  unfold BaseRepository._clean_filters
  by_cases hb : b = true
  · simp [hb, h]
  · simp only [Bool.not_eq_true] at hb
    simp [hb, List.mem_filter, h, hv]

/-- C5: every filter-taking SoftDeleteRepository operation injects
is_deleted=false into the filter set by default and respects an explicit
caller-supplied value: when the caller already passed is_deleted (any
value, true included) the filter set is left exactly as supplied and the
delegating operations behave as the base operation on the unchanged set;
when not, they behave as the base operation with is_deleted=false
appended (the non-delegating soft delete likewise); consequently a row
returned by the default get_single is actually non-deleted. -/
theorem soft_repo_filters_active_by_default
    (m : Model) (order_field : String) (data : Filters)
    (allow_null_filters commit : Bool) (now : Nat) (fs : Filters) (rows : List Row) :
    (hasKey fs "is_deleted" = true →
        setdefault fs "is_deleted" (Value.vBool false) = fs
        ∧ SoftDeleteRepository.get_single allow_null_filters fs rows
            = BaseRepository.get_single allow_null_filters fs rows
        ∧ SoftDeleteRepository.get_list m allow_null_filters fs rows
            = BaseRepository.get_list m allow_null_filters fs rows
        ∧ SoftDeleteRepository.get_last_entry m order_field fs rows
            = BaseRepository.get_last_entry m order_field fs rows
        ∧ SoftDeleteRepository.get_paginated_list m allow_null_filters fs rows
            = BaseRepository.get_paginated_list m allow_null_filters fs rows
        ∧ SoftDeleteRepository.update data allow_null_filters commit fs rows
            = BaseRepository.update data allow_null_filters commit fs rows)
    ∧ (hasKey fs "is_deleted" = false →
        setdefault fs "is_deleted" (Value.vBool false)
            = fs ++ [("is_deleted", Value.vBool false)]
        ∧ SoftDeleteRepository.get_single allow_null_filters fs rows
            = BaseRepository.get_single allow_null_filters
                (fs ++ [("is_deleted", Value.vBool false)]) rows
        ∧ SoftDeleteRepository.get_list m allow_null_filters fs rows
            = BaseRepository.get_list m allow_null_filters
                (fs ++ [("is_deleted", Value.vBool false)]) rows
        ∧ SoftDeleteRepository.get_last_entry m order_field fs rows
            = BaseRepository.get_last_entry m order_field
                (fs ++ [("is_deleted", Value.vBool false)]) rows
        ∧ SoftDeleteRepository.get_paginated_list m allow_null_filters fs rows
            = BaseRepository.get_paginated_list m allow_null_filters
                (fs ++ [("is_deleted", Value.vBool false)]) rows
        ∧ SoftDeleteRepository.update data allow_null_filters commit fs rows
            = BaseRepository.update data allow_null_filters commit
                (fs ++ [("is_deleted", Value.vBool false)]) rows
        ∧ SoftDeleteRepository.delete now commit allow_null_filters fs rows
            = SoftDeleteRepository.delete now commit allow_null_filters
                (fs ++ [("is_deleted", Value.vBool false)]) rows)
    ∧ (hasKey fs "is_deleted" = false →
        ∀ r, SoftDeleteRepository.get_single allow_null_filters fs rows = some r →
          Row.get r "is_deleted" = Value.vBool false) := by
  refine ⟨fun hp => ?_, fun ha => ?_, fun ha r hr => ?_⟩
  · have hsd : setdefault fs "is_deleted" (Value.vBool false) = fs := by
      simp [setdefault, hp]
    exact ⟨hsd, by simp [SoftDeleteRepository.get_single, hsd],
      by simp [SoftDeleteRepository.get_list, hsd],
      by simp [SoftDeleteRepository.get_last_entry, hsd],
      by simp [SoftDeleteRepository.get_paginated_list, hsd],
      by simp [SoftDeleteRepository.update, hsd]⟩
  · have hsd : setdefault fs "is_deleted" (Value.vBool false)
        = fs ++ [("is_deleted", Value.vBool false)] := by
      simp [setdefault, ha]
    have hsd2 : setdefault (fs ++ [("is_deleted", Value.vBool false)]) "is_deleted"
        (Value.vBool false) = fs ++ [("is_deleted", Value.vBool false)] := by
      simp [setdefault, hasKey_append_self]
    exact ⟨hsd, by simp [SoftDeleteRepository.get_single, hsd],
      by simp [SoftDeleteRepository.get_list, hsd],
      by simp [SoftDeleteRepository.get_last_entry, hsd],
      by simp [SoftDeleteRepository.get_paginated_list, hsd],
      by simp [SoftDeleteRepository.update, hsd],
      by simp only [SoftDeleteRepository.delete, hsd, hsd2]⟩
  · have hr2 : rows.find? (fun x => rowMatches x (BaseRepository._clean_filters
        (setdefault fs "is_deleted" (Value.vBool false)) allow_null_filters)) = some r := hr
    have hsd : setdefault fs "is_deleted" (Value.vBool false)
        = fs ++ [("is_deleted", Value.vBool false)] := by
      simp [setdefault, ha]
    have hmem : (("is_deleted", Value.vBool false) : String × Value)
        ∈ BaseRepository._clean_filters (setdefault fs "is_deleted" (Value.vBool false))
            allow_null_filters := by
      apply mem_clean_filters_of_ne_none
      · rw [hsd]
        exact List.mem_append_right _ (List.mem_singleton_self _)
      · decide
    have hm := List.find?_some hr2
    exact rowMatches_iff.mp hm ("is_deleted", Value.vBool false) hmem

/-- C5 witness: with no caller filter on is_deleted, soft get_single on a
store holding one deleted and one active row skips the deleted row,
returning the active one, whose is_deleted flag is indeed false. -/
theorem soft_repo_filters_active_by_default_witness :
    Row.get [("id", Value.vNat 2), ("is_deleted", Value.vBool false)] "is_deleted"
      = Value.vBool false :=
  (soft_repo_filters_active_by_default ⟨["id"]⟩ "created_at" [] false false 0 []
      [[("id", Value.vNat 1), ("is_deleted", Value.vBool true)],
       [("id", Value.vNat 2), ("is_deleted", Value.vBool false)]]).2.2
    (by decide)
    [("id", Value.vNat 2), ("is_deleted", Value.vBool false)]
    (by decide)

/-- C6: on a filter set matching zero rows, get_single, get_last_entry,
update and delete all return the not-found sentinel rather than raising,
and update (like delete) leaves the store untouched and issues no
commit. -/
theorem zero_matches_return_sentinel
    (m : Model) (order_field : String) (data : Filters)
    (allow_null_filters commit : Bool) (fs : Filters) (rows : List Row)
    (h : ∀ r ∈ rows,
        rowMatches r (BaseRepository._clean_filters fs allow_null_filters) = false) :
    BaseRepository.get_single allow_null_filters fs rows = none
    ∧ BaseRepository.get_last_entry m order_field fs rows = none
    ∧ BaseRepository.update data allow_null_filters commit fs rows = (rows, false, none)
    ∧ BaseRepository.delete commit allow_null_filters fs rows = (rows, false, none) := by
  have hfind : rows.find? (fun r =>
      rowMatches r (BaseRepository._clean_filters fs allow_null_filters)) = none := by
    rw [List.find?_eq_none]
    intro x hx
    simp [h x hx]
  have hraw : rows.filter (fun r => rowMatches r fs) = [] := by
    rw [List.filter_eq_nil_iff]
    intro a ha hm
    have := rowMatches_clean_of_rowMatches allow_null_filters hm
    rw [h a ha] at this
    exact Bool.false_ne_true this
  refine ⟨?_, ?_, ?_, ?_⟩
  · simp only [BaseRepository.get_single, hfind]
  · simp only [BaseRepository.get_last_entry, hraw]
    cases chosenField m order_field <;> rfl
  · simp only [BaseRepository.update, hfind]
  · simp only [BaseRepository.delete, hfind]

/-- C6 witness: filtering a one-row store by an id no row carries, every
lookup and mutation entry point returns the sentinel and the store,
commit state included, is untouched. -/
theorem zero_matches_return_sentinel_witness :
    BaseRepository.get_single false [("id", Value.vNat 999)] [[("id", Value.vNat 1)]] = none
    ∧ BaseRepository.get_last_entry ⟨["id"]⟩ "created_at" [("id", Value.vNat 999)]
        [[("id", Value.vNat 1)]] = none
    ∧ BaseRepository.update [("name", Value.vStr "b")] false true [("id", Value.vNat 999)]
        [[("id", Value.vNat 1)]] = ([[("id", Value.vNat 1)]], false, none)
    ∧ BaseRepository.delete true false [("id", Value.vNat 999)]
        [[("id", Value.vNat 1)]] = ([[("id", Value.vNat 1)]], false, none) :=
  zero_matches_return_sentinel ⟨["id"]⟩ "created_at" [("name", Value.vStr "b")]
    false true [("id", Value.vNat 999)] [[("id", Value.vNat 1)]] (by decide)

/-- C7: on a filter set matching a row, base delete with commit=false
performs the lookup and returns the found instance while removing
nothing and committing nothing; with commit=true the same call removes
one row from the store, commits, and returns the instance. -/
theorem base_delete_without_commit_discards
    (allow_null_filters : Bool) (fs : Filters) (rows : List Row) (inst : Row)
    (h : rows.find? (fun r =>
        rowMatches r (BaseRepository._clean_filters fs allow_null_filters)) = some inst) :
    BaseRepository.delete false allow_null_filters fs rows = (rows, false, some inst)
    ∧ (BaseRepository.delete true allow_null_filters fs rows).2.1 = true
    ∧ (BaseRepository.delete true allow_null_filters fs rows).2.2 = some inst
    ∧ (BaseRepository.delete true allow_null_filters fs rows).1.length
        = rows.length - 1 := by
  constructor
  · simp only [BaseRepository.delete, h]
    rfl
  · refine ⟨?_, ?_, ?_⟩ <;> simp only [BaseRepository.delete, h]
    · rfl
    · rfl
    · have hmem := List.mem_of_find?_eq_some h
      have hp := List.find?_some h
      exact List.length_eraseP_of_mem hmem hp

/-- C7 witness: on a one-row store, delete with commit=false returns the
row but keeps the store and issues no commit; with commit=true it
empties the store, commits and returns the row. -/
theorem base_delete_without_commit_discards_witness :
    BaseRepository.delete false false [("id", Value.vNat 1)] [[("id", Value.vNat 1)]]
      = ([[("id", Value.vNat 1)]], false, some [("id", Value.vNat 1)])
    ∧ (BaseRepository.delete true false [("id", Value.vNat 1)]
        [[("id", Value.vNat 1)]]).2.1 = true
    ∧ (BaseRepository.delete true false [("id", Value.vNat 1)]
        [[("id", Value.vNat 1)]]).2.2 = some [("id", Value.vNat 1)]
    ∧ (BaseRepository.delete true false [("id", Value.vNat 1)]
        [[("id", Value.vNat 1)]]).1.length = 0 :=
  base_delete_without_commit_discards false [("id", Value.vNat 1)]
    [[("id", Value.vNat 1)]] [("id", Value.vNat 1)] (by decide)

/-- C8: get_last_entry does not run its filters through the cleaning
policy — a returned row satisfies every caller-supplied entry, the
null-valued ones included; by contrast get_single (allow_null_filters
left at false) strips a null entry and can return a row whose attribute
is non-null, on which same input get_last_entry finds nothing. -/
theorem get_last_entry_bypasses_filter_policy
    (m : Model) (order_field : String) (fs : Filters) (rows : List Row) (r : Row)
    (h : BaseRepository.get_last_entry m order_field fs rows = some r) :
    (∀ kv ∈ fs, Row.get r kv.1 = kv.2)
    ∧ BaseRepository.get_single false [("name", Value.vNone)]
        [[("id", Value.vNat 1), ("name", Value.vStr "a")]]
      = some [("id", Value.vNat 1), ("name", Value.vStr "a")]
    ∧ BaseRepository.get_last_entry ⟨["id", "name"]⟩ "created_at" [("name", Value.vNone)]
        [[("id", Value.vNat 1), ("name", Value.vStr "a")]] = none := by
  refine ⟨?_, by decide, by decide⟩
  have hmem : r ∈ rows.filter (fun x => rowMatches x fs) := by
    simp only [BaseRepository.get_last_entry] at h
    cases hcf : chosenField m order_field with
    | some f =>
        rw [hcf] at h
        have h2 : (sortDescBy (fun x => natOf (Row.get x f))
            (rows.filter (fun x => rowMatches x fs))).head? = some r := h
        obtain ⟨ys, hys⟩ := List.head?_eq_some_iff.mp h2
        have hr : r ∈ sortDescBy (fun x => natOf (Row.get x f))
            (rows.filter (fun x => rowMatches x fs)) := by
          rw [hys]
          exact List.mem_cons_self _ _
        exact (perm_sortDescBy _ _).mem_iff.mp hr
    | none =>
        rw [hcf] at h
        have h2 : (rows.filter (fun x => rowMatches x fs)).head? = some r := h
        obtain ⟨ys, hys⟩ := List.head?_eq_some_iff.mp h2
        rw [hys]
        exact List.mem_cons_self _ _
  exact rowMatches_iff.mp (List.mem_filter.mp hmem).2

/-- C8 witness: get_last_entry on the filter id=1 returns the row with
id 1, and the returned row indeed satisfies the raw filter entry. -/
theorem get_last_entry_bypasses_filter_policy_witness :
    Row.get [("id", Value.vNat 1)] "id" = Value.vNat 1 :=
  (get_last_entry_bypasses_filter_policy ⟨["id"]⟩ "created_at" [("id", Value.vNat 1)]
      [[("id", Value.vNat 1)]] [("id", Value.vNat 1)] (by decide)).1
    ("id", Value.vNat 1) (by decide)

/-- C9 counterexample: on a model with a created_at column and a store of
two distinct rows sharing created_at=5, get_list with no filters returns
both rows, so the timestamp sequence 5,5 is not strictly descending —
refuting the strictly-descending part of the claim. -/
theorem get_list_not_strictly_descending_on_ties :
    (BaseRepository.get_list ⟨["id", "created_at"]⟩ false []
        [[("id", Value.vNat 1), ("created_at", Value.vNat 5)],
         [("id", Value.vNat 2), ("created_at", Value.vNat 5)]]).length = 2
    ∧ ¬ (((BaseRepository.get_list ⟨["id", "created_at"]⟩ false []
        [[("id", Value.vNat 1), ("created_at", Value.vNat 5)],
         [("id", Value.vNat 2), ("created_at", Value.vNat 5)]]).map
          (fun r => natOf (Row.get r "created_at"))).Sorted (· > ·)) := by
  exact ⟨by decide, by decide⟩

/-- C9 amended: get_list returns a permutation of the rows matching the
cleaned filters; when the model has a created_at column the result is in
non-increasing (descending, ties possible) created_at order, and strictly
descending whenever the matching rows' timestamps are pairwise distinct;
when created_at is absent but id is present the result is in
non-increasing id order; with neither column the result is in store
order. -/
theorem get_list_ordering (m : Model) (allow_null_filters : Bool) (fs : Filters)
    (rows : List Row) :
    (BaseRepository.get_list m allow_null_filters fs rows).Perm
      (rows.filter (fun r =>
        rowMatches r (BaseRepository._clean_filters fs allow_null_filters)))
    ∧ (m.columns.contains "created_at" = true →
        (BaseRepository.get_list m allow_null_filters fs rows).Sorted
          (fun a b => natOf (Row.get b "created_at") ≤ natOf (Row.get a "created_at"))
        ∧ (((rows.filter (fun r =>
              rowMatches r (BaseRepository._clean_filters fs allow_null_filters))).map
              (fun r => natOf (Row.get r "created_at"))).Nodup →
            ((BaseRepository.get_list m allow_null_filters fs rows).map
              (fun r => natOf (Row.get r "created_at"))).Sorted (· > ·)))
    ∧ (m.columns.contains "created_at" = false → m.columns.contains "id" = true →
        (BaseRepository.get_list m allow_null_filters fs rows).Sorted
          (fun a b => natOf (Row.get b "id") ≤ natOf (Row.get a "id")))
    ∧ (m.columns.contains "created_at" = false → m.columns.contains "id" = false →
        BaseRepository.get_list m allow_null_filters fs rows
          = rows.filter (fun r =>
              rowMatches r (BaseRepository._clean_filters fs allow_null_filters))) := by
  refine ⟨?_, fun h1 => ?_, fun h1 h2 => ?_, fun h1 h2 => ?_⟩
  · simp only [BaseRepository.get_list, orderField]
    by_cases h1 : m.columns.contains "created_at" = true
    · simp only [h1, if_true]
      exact perm_sortDescBy _ _
    · simp only [Bool.not_eq_true] at h1
      simp only [h1, Bool.false_eq_true, if_false]
      by_cases h2 : m.columns.contains "id" = true
      · simp only [h2, if_true]
        exact perm_sortDescBy _ _
      · simp only [Bool.not_eq_true] at h2
        simp only [h2, Bool.false_eq_true, if_false]
        exact List.Perm.refl _
  · have hres : BaseRepository.get_list m allow_null_filters fs rows
        = sortDescBy (fun r => natOf (Row.get r "created_at"))
            (rows.filter (fun r =>
              rowMatches r (BaseRepository._clean_filters fs allow_null_filters))) := by
      simp only [BaseRepository.get_list, orderField, h1, if_true]
    refine ⟨by rw [hres]; exact sorted_sortDescBy _ _, fun hnd => ?_⟩
    have hperm := perm_sortDescBy (fun r => natOf (Row.get r "created_at"))
      (rows.filter (fun r =>
        rowMatches r (BaseRepository._clean_filters fs allow_null_filters)))
    rw [hres]
    refine sorted_gt_map_of_nodup _ _ (sorted_sortDescBy _ _) ?_
    exact ((hperm.map (fun r => natOf (Row.get r "created_at"))).nodup_iff).mpr hnd
  · have hres : BaseRepository.get_list m allow_null_filters fs rows
        = sortDescBy (fun r => natOf (Row.get r "id"))
            (rows.filter (fun r =>
              rowMatches r (BaseRepository._clean_filters fs allow_null_filters))) := by
      simp only [BaseRepository.get_list, orderField, h1, h2, Bool.false_eq_true,
        if_false, if_true]
    rw [hres]
    exact sorted_sortDescBy _ _
  · simp only [BaseRepository.get_list, orderField, h1, h2, Bool.false_eq_true, if_false]

/-- C9 witness: on a model with created_at and a two-row store with
distinct timestamps 3 and 7 in ascending store order, get_list with no
filters returns the rows in strictly descending timestamp order. -/
theorem get_list_ordering_witness :
    ((BaseRepository.get_list ⟨["id", "created_at"]⟩ false []
        [[("id", Value.vNat 1), ("created_at", Value.vNat 3)],
         [("id", Value.vNat 2), ("created_at", Value.vNat 7)]]).map
      (fun r => natOf (Row.get r "created_at"))).Sorted (· > ·) :=
  ((get_list_ordering ⟨["id", "created_at"]⟩ false []
      [[("id", Value.vNat 1), ("created_at", Value.vNat 3)],
       [("id", Value.vNat 2), ("created_at", Value.vNat 7)]]).2.1
    (by decide)).2 (by decide)

/-- C10: BaseService.get_list_without_pagination resolves a method named
get_list_without_pagination on the repository; neither BaseRepository
nor SoftDeleteRepository declares that attribute, so for every filter
argument the call fails with an attribute-lookup error and never
returns a result. -/
theorem service_get_list_without_pagination_always_errors
    (allow_null_filters : Bool) (fs : Filters) (rows : List Row) :
    BaseService.get_list_without_pagination BaseRepository.attributeNames
        allow_null_filters fs rows
      = Except.error "AttributeError: get_list_without_pagination"
    ∧ BaseService.get_list_without_pagination SoftDeleteRepository.attributeNames
        allow_null_filters fs rows
      = Except.error "AttributeError: get_list_without_pagination" :=
  ⟨rfl, rfl⟩
